import Mathlib

/-!
Verification of the certainty-factor (CF) inference engine of the tomato
nutrient-deficiency expert system.

The development is a shallow embedding of the Python sources:
  app/services/inference_cf.py    (validation, rule evaluation, CF combination)
  app/services/knowledge_base.py  (knowledge-base loading and validation)

Numeric values are modelled as exact rationals; the source computes with
IEEE floats, and the spec treats the arithmetic as exact.  Python dicts are
modelled as association lists with unique keys, preserving insertion order.
Calls to logger.warning that record input anomalies are modelled as
explicitly returned notes, so that observability claims can be stated.
-/

/-- Rounding to 4 decimal places, as the source's round(x, 4) on displayed
values.  Python rounds halves to even; no value in this development sits at
a half, where the two conventions agree. -/
def round4 (q : ℚ) : ℚ := (round (q * 10000) : ℤ) / 10000

/-- Rounding to 2 decimal places, as the source's round(x, 2) used for the
percentage field. -/
def round2 (q : ℚ) : ℚ := (round (q * 100) : ℤ) / 100

/-- Clamping into the unit interval: max(0.0, min(1.0, x)) in the source. -/
def clamp01 (q : ℚ) : ℚ := max 0 (min 1 q)

/-- A symptom record of the knowledge base: code, name, category. -/
structure Symptom where
  code : String
  name : String
  category : String
deriving Repr

/-- A nutrient (hypothesis) record: code, name, solution text. -/
structure Nutrient where
  code : String
  name : String
  solusi : String
deriving Repr

/-- A rule: nutrient code, symptom code, expert confidence cf. -/
structure Rule where
  nutrient : String
  symptom : String
  cf : ℚ
deriving Repr

/-- The validated knowledge base: ordered collections of symptoms,
nutrients and rules. -/
structure KnowledgeBase where
  symptoms : List Symptom
  nutrients : List Nutrient
  rules : List Rule
deriving Repr

/-- The symptom codes of the knowledge base, in declared order. -/
def KnowledgeBase.symptomCodes (kb : KnowledgeBase) : List String :=
  kb.symptoms.map Symptom.code

/-- A raw observation value as submitted by the caller: either a value that
float() converts to a number, or one on which float() raises. -/
inductive CFValue where
  | num (q : ℚ)
  | nonNumeric
deriving Repr, DecidableEq

/-- An observability note, embedding the logger.warning calls of
validate selected symptoms. -/
inductive ValidationNote where
  | invalidCode (code : String)
  | nonNumericSkipped (code : String)
  | clamped (code : String) (original : ℚ)
deriving Repr, DecidableEq

/-- Embedding of knowledge_base.validate_symptom_codes: splits a code list
into the codes present in the knowledge base and the rest, both in input
order. -/
def validate_symptom_codes (kb : KnowledgeBase) (codes : List String) :
    List String × List String :=
  (codes.filter (fun c => c ∈ kb.symptomCodes),
   codes.filter (fun c => c ∉ kb.symptomCodes))

/-- Embedding of inference_cf._validate_selected_symptoms.  Entries whose
code is unknown are dropped with a note; entries whose value float() cannot
convert are dropped with a note; numeric values outside the unit interval
are clamped with a note; all other entries pass unchanged.  Order of kept
entries follows the input (dict-insertion) order, as in the source. -/
def validate_selected_symptoms (kb : KnowledgeBase) :
    List (String × CFValue) → List (String × ℚ) × List ValidationNote
  | [] => ([], [])
  | (code, v) :: rest =>
    let prev := validate_selected_symptoms kb rest
    if code ∈ kb.symptomCodes then
      match v with
      | .nonNumeric => (prev.1, .nonNumericSkipped code :: prev.2)
      | .num q =>
        if 0 ≤ q ∧ q ≤ 1 then ((code, q) :: prev.1, prev.2)
        else ((code, clamp01 q) :: prev.1, .clamped code q :: prev.2)
    else (prev.1, .invalidCode code :: prev.2)

/-- Embedding of inference_cf._calculate_rule_cf: both arguments are
clamped into the unit interval, then multiplied. -/
def calculate_rule_cf (cf_pakar cf_user : ℚ) : ℚ :=
  clamp01 cf_pakar * clamp01 cf_user

/-- One update of the running accumulator of the combination loop:
CF_combined = CF_old + CF_new * (1 - CF_old). -/
def combineStep (cf_old cf_new : ℚ) : ℚ := cf_old + cf_new * (1 - cf_old)

/-- A recorded combination step, as the dict appended to the steps list in
the source (the formula display string is omitted; the stored numeric
fields are rounded to 4 places exactly as in the source). -/
structure CombinationStep where
  step : ℕ
  cf_old : ℚ
  cf_new : ℚ
  result : ℚ
deriving Repr

/-- The loop of combine multiple cf: folds the remaining contributions
into the accumulator, recording one step per contribution, with the step
index starting at the given value. -/
def combineFold : ℚ → ℕ → List ℚ → ℚ × List CombinationStep
  | acc, _, [] => (acc, [])
  | acc, idx, x :: rest =>
    let next := combineStep acc x
    let tail := combineFold next (idx + 1) rest
    (tail.1, ⟨idx, round4 acc, round4 x, round4 next⟩ :: tail.2)

/-- Embedding of inference_cf._combine_multiple_cf: 0 for the empty list, a
singleton is returned as is with no steps, longer lists are folded
left-to-right from the first element with the step counter at 1. -/
def combine_multiple_cf : List ℚ → ℚ × List CombinationStep
  | [] => (0, [])
  | [x] => (x, [])
  | x :: rest => combineFold x 1 rest

/-- The exact sequence of values taken by the loop accumulator of
combine multiple cf, the initial value included. -/
def combineRunning : ℚ → List ℚ → List ℚ
  | acc, [] => [acc]
  | acc, x :: rest => acc :: combineRunning (combineStep acc x) rest

/-- The final accumulator value of the combination loop. -/
def combineFinal : ℚ → List ℚ → ℚ
  | acc, [] => acc
  | acc, x :: rest => combineFinal (combineStep acc x) rest

/-- Lookup into the symptoms_data dict built by calculate_cf_with_details;
a dict built by insertion keeps the last record for a repeated code, hence
the search over the reversed list. -/
def symptomLookup (kb : KnowledgeBase) (c : String) : Option Symptom :=
  kb.symptoms.reverse.find? (fun s => s.code = c)

/-- A per-rule contribution entry of the trace, as the dict appended to
rules_used in the source (the formula display string is omitted; numeric
fields are rounded to 4 places as in the source). -/
structure RuleUsage where
  symptom_code : String
  symptom_name : String
  symptom_category : String
  cf_pakar : ℚ
  cf_user : ℚ
  cf_rule : ℚ
deriving Repr

/-- One iteration of the inner rule loop of calculate_cf_with_details.  A
rule whose symptom is absent from the observation contributes nothing; a
present value is converted by float(), whose failure on a non-numeric value
is the error case (an uncaught ValueError in the source); a converted value
contributes only when strictly positive.  When the symptom code has no
record in the catalog, the source substitutes the placeholder dict with
name equal to the code and category Unknown. -/
def ruleEntry (kb : KnowledgeBase) (selected : List (String × CFValue))
    (r : Rule) : Except String (Option (RuleUsage × ℚ)) :=
  match selected.lookup r.symptom with
  | none => .ok none
  | some .nonNumeric => .error ("could not convert value for " ++ r.symptom)
  | some (.num cf_user) =>
    if 0 < cf_user then
      let cf_rule := calculate_rule_cf r.cf cf_user
      let info := (symptomLookup kb r.symptom).getD ⟨r.symptom, r.symptom, "Unknown"⟩
      .ok (some (⟨r.symptom, info.name, info.category,
                  round4 r.cf, round4 cf_user, round4 cf_rule⟩, cf_rule))
    else .ok none

/-- The inner rule loop of calculate_cf_with_details for one nutrient's
rule list: collects the rules_used entries and the cf_list, in rule order,
skipping rules without a contribution. -/
def evalRules (kb : KnowledgeBase) (selected : List (String × CFValue)) :
    List Rule → Except String (List RuleUsage × List ℚ)
  | [] => .ok ([], [])
  | r :: rest =>
    match ruleEntry kb selected r with
    | .error e => .error e
    | .ok none => evalRules kb selected rest
    | .ok (some entry) =>
      match evalRules kb selected rest with
      | .error e => .error e
      | .ok (us, cfs) => .ok (entry.1 :: us, entry.2 :: cfs)

/-- The per-nutrient calculation-detail record built by
calculate_cf_with_details.  The source stores it as a dict with these keys;
the zero-evidence early return stores only rules_used, cf_final and an
empty steps list, modelled here by the same record with the remaining
fields at their empty or zero values. -/
structure NutrientDetail where
  nutrient_code : String
  nutrient_name : String
  rules_used : List RuleUsage
  cf_list : List ℚ
  combination_steps : List CombinationStep
  cf_final : ℚ
  cf_percentage : ℚ
deriving Repr

/-- The body of the per-nutrient loop of calculate_cf_with_details. -/
def evalNutrient (kb : KnowledgeBase) (selected : List (String × CFValue))
    (n : Nutrient) : Except String ((String × ℚ) × (String × NutrientDetail)) :=
  let nutrient_rules := kb.rules.filter (fun r => r.nutrient = n.code)
  match evalRules kb selected nutrient_rules with
  | .error e => .error e
  | .ok (rules_used, cf_list) =>
    let fs :=
      match cf_list with
      | [] => ((0 : ℚ), ([] : List CombinationStep))
      | _ :: _ => combine_multiple_cf cf_list
    .ok ((n.code, round4 fs.1),
         (n.code,
          ⟨n.code, n.name, rules_used, cf_list.map round4, fs.2,
           round4 fs.1, round2 (fs.1 * 100)⟩))

/-- The per-nutrient loop of calculate_cf_with_details over the nutrient
catalog, in declared order. -/
def evalNutrients (kb : KnowledgeBase) (selected : List (String × CFValue)) :
    List Nutrient → Except String (List (String × ℚ) × List (String × NutrientDetail))
  | [] => .ok ([], [])
  | n :: rest =>
    match evalNutrient kb selected n with
    | .error e => .error e
    | .ok (cfEntry, detailEntry) =>
      match evalNutrients kb selected rest with
      | .error e => .error e
      | .ok (cfs, details) => .ok (cfEntry :: cfs, detailEntry :: details)

/-- Embedding of inference_cf.calculate_cf_with_details.  With
validate_input set, the observation first passes through the validator;
an observation that is (or reduces to) empty yields the all-zero mapping
with empty traces; otherwise every nutrient of the catalog is evaluated. -/
def calculate_cf_with_details (kb : KnowledgeBase)
    (selected_symptoms : List (String × CFValue)) (validate_input : Bool) :
    Except String (List (String × ℚ) × List (String × NutrientDetail)) :=
  let selected :=
    if validate_input then
      (validate_selected_symptoms kb selected_symptoms).1.map
        (fun p => (p.1, CFValue.num p.2))
    else selected_symptoms
  match selected with
  | [] =>
    .ok (kb.nutrients.map (fun n => (n.code, (0 : ℚ))),
         kb.nutrients.map (fun n => (n.code, ⟨n.code, n.name, [], [], [], 0, 0⟩)))
  | _ :: _ =>
    evalNutrients kb selected kb.nutrients

/-- Embedding of inference_cf.calculate_cf: the CF mapping without the
details. -/
def calculate_cf (kb : KnowledgeBase)
    (selected_symptoms : List (String × CFValue)) (validate_input : Bool) :
    Except String (List (String × ℚ)) :=
  (calculate_cf_with_details kb selected_symptoms validate_input).map Prod.fst

/-- The semantics of Python max over values with a key function: the
candidate is replaced only when the new value is strictly greater, so the
first element attaining the maximum wins. -/
def maxByValue : String × ℚ → List (String × ℚ) → String × ℚ
  | best, [] => best
  | best, p :: rest =>
    if best.2 < p.2 then maxByValue p rest else maxByValue best rest

/-- Embedding of inference_cf.get_top_nutrient: nothing for an empty
mapping, nothing when the maximum value is 0, otherwise the first key
attaining the maximum, paired with the maximum. -/
def get_top_nutrient : List (String × ℚ) → Option (String × ℚ)
  | [] => none
  | p :: rest =>
    let max_cf := (rest.map Prod.snd).foldl max p.2
    if max_cf = 0 then none
    else some ((maxByValue p rest).1, max_cf)

/-- The D04 worked example's knowledge base: rules for nutrient D04 over
symptoms G19, G20, G21 with expert confidences 0.85, 0.93, 0.70. -/
def kbD04 : KnowledgeBase where
  symptoms := [⟨"G19", "Gejala 19", "Buah"⟩, ⟨"G20", "Gejala 20", "Buah"⟩,
               ⟨"G21", "Gejala 21", "Buah"⟩]
  nutrients := [⟨"D04", "Defisiensi Kalsium", "solusi"⟩]
  rules := [⟨"D04", "G19", 85/100⟩, ⟨"D04", "G20", 93/100⟩, ⟨"D04", "G21", 70/100⟩]

/-- The D04 worked example's user observation. -/
def obsD04 : List (String × CFValue) :=
  [("G19", .num (8/10)), ("G20", .num 1), ("G21", .num (6/10))]

/-- A parsed JSON value, the shape json.load produces for the backing
knowledge-base document. -/
inductive JValue where
  | null
  | bool (b : Bool)
  | num (q : ℚ)
  | str (s : String)
  | arr (items : List JValue)
  | obj (fields : List (String × JValue))
deriving Repr

mutual

/-- Structural equality of parsed JSON values, as Python compares the code
values collected during validation.  Cross-type numeric equalities of
Python (True equal to 1) are not modelled; the codes compared by the system
are strings. -/
def jvalBeq : JValue → JValue → Bool
  | .null, .null => true
  | .bool a, .bool b => a == b
  | .num a, .num b => a == b
  | .str a, .str b => a == b
  | .arr as, .arr bs => jvalListBeq as bs
  | .obj fs, .obj gs => jvalFieldsBeq fs gs
  | _, _ => false

/-- Elementwise equality of JSON arrays. -/
def jvalListBeq : List JValue → List JValue → Bool
  | [], [] => true
  | a :: as, b :: bs => jvalBeq a b && jvalListBeq as bs
  | _, _ => false

/-- Fieldwise equality of JSON objects. -/
def jvalFieldsBeq : List (String × JValue) → List (String × JValue) → Bool
  | [], [] => true
  | (k, a) :: as, (l, b) :: bs => k == l && jvalBeq a b && jvalFieldsBeq as bs
  | _, _ => false

end

/-- Key lookup in a parsed JSON object; json.load keeps the last value of a
repeated key, hence the search from the end. -/
def jLookup (fields : List (String × JValue)) (k : String) : Option JValue :=
  fields.reverse.lookup k

/-- Conversion of a parsed JSON value by float(): JSON numbers convert to
themselves and booleans to 1 or 0; null, arrays and objects raise.  Python
also parses numeric string literals, which no statement here exercises. -/
def jsonToFloat : JValue → Option ℚ
  | .num q => some q
  | .bool b => some (if b then 1 else 0)
  | _ => none

/-- Presence check of the required record fields, in the source's order,
with the record kind and index named in the error. -/
def checkRequiredKeys (what : String) (idx : ℕ)
    (fields : List (String × JValue)) : List String → Except String Unit
  | [] => .ok ()
  | k :: ks =>
    if (jLookup fields k).isSome then checkRequiredKeys what idx fields ks
    else .error (what ++ " pada index " ++ toString idx ++ " tidak memiliki key " ++ k)

/-- Lookup of a required top-level collection: missing key and non-list
value are the two distinct validation failures of the source's first
loop. -/
def getListKey (kb : List (String × JValue)) (k : String) :
    Except String (List JValue) :=
  match jLookup kb k with
  | none => .error ("Knowledge base tidak memiliki key " ++ k ++ " yang diperlukan")
  | some (.arr xs) => .ok xs
  | some _ => .error ("Key " ++ k ++ " harus berupa list")

/-- The symptoms loop of the validator: each record must be an object with
the fields code, name and category, and no code may repeat; the collected
code values are returned for the referential check of the rules. -/
def validateSymptoms : ℕ → List JValue → List JValue → Except String (List JValue)
  | _, seen, [] => .ok seen
  | idx, seen, s :: rest =>
    match s with
    | .obj fields =>
      match checkRequiredKeys "Symptom" idx fields ["code", "name", "category"] with
      | .error e => .error e
      | .ok _ =>
        let code := (jLookup fields "code").getD .null
        if seen.any (fun c => jvalBeq c code) then
          .error "Duplicate symptom code"
        else validateSymptoms (idx + 1) (seen ++ [code]) rest
    | _ => .error ("Symptom pada index " ++ toString idx ++ " harus berupa dictionary")

/-- The nutrients loop of the validator: required fields code, name and
solusi, and no repeated code. -/
def validateNutrients : ℕ → List JValue → List JValue → Except String (List JValue)
  | _, seen, [] => .ok seen
  | idx, seen, s :: rest =>
    match s with
    | .obj fields =>
      match checkRequiredKeys "Nutrient" idx fields ["code", "name", "solusi"] with
      | .error e => .error e
      | .ok _ =>
        let code := (jLookup fields "code").getD .null
        if seen.any (fun c => jvalBeq c code) then
          .error "Duplicate nutrient code"
        else validateNutrients (idx + 1) (seen ++ [code]) rest
    | _ => .error ("Nutrient pada index " ++ toString idx ++ " harus berupa dictionary")

/-- The rules loop of the validator: required fields, referential checks of
the nutrient and symptom codes against the collected sets, then the cf
value must convert by float() and lie in the unit interval. -/
def validateRules (symCodes nutCodes : List JValue) :
    ℕ → List JValue → Except String Unit
  | _, [] => .ok ()
  | idx, r :: rest =>
    match r with
    | .obj fields =>
      match checkRequiredKeys "Rule" idx fields ["nutrient", "symptom", "cf"] with
      | .error e => .error e
      | .ok _ =>
        let nutr := (jLookup fields "nutrient").getD .null
        let symp := (jLookup fields "symptom").getD .null
        if ¬ nutCodes.any (fun c => jvalBeq c nutr) then
          .error ("Rule pada index " ++ toString idx ++
                  " memiliki nutrient code yang tidak ada di nutrients")
        else if ¬ symCodes.any (fun c => jvalBeq c symp) then
          .error ("Rule pada index " ++ toString idx ++
                  " memiliki symptom code yang tidak ada di symptoms")
        else
          match jsonToFloat ((jLookup fields "cf").getD .null) with
          | none => .error ("Rule pada index " ++ toString idx ++
                            " memiliki CF value yang tidak valid")
          | some v =>
            if 0 ≤ v ∧ v ≤ 1 then validateRules symCodes nutCodes (idx + 1) rest
            else .error ("Rule pada index " ++ toString idx ++
                         " memiliki CF value di luar range 0.0-1.0")
    | _ => .error ("Rule pada index " ++ toString idx ++ " harus berupa dictionary")

/-- Embedding of knowledge_base._validate_knowledge_base_structure: the
error value models the raised KnowledgeBaseValidationError. -/
def validate_knowledge_base_structure (kb : List (String × JValue)) :
    Except String Unit := do
  let symptomsJ ← getListKey kb "symptoms"
  let nutrientsJ ← getListKey kb "nutrients"
  let rulesJ ← getListKey kb "rules"
  let symCodes ← validateSymptoms 0 [] symptomsJ
  let nutCodes ← validateNutrients 0 [] nutrientsJ
  validateRules symCodes nutCodes 0 rulesJ

/-- The two exception classes of knowledge_base.py: validation is declared
as a subtype of the base error, so the two are distinguishable by the
caller. -/
inductive KBError where
  | base (msg : String)
  | validation (msg : String)
deriving Repr, DecidableEq

/-- The state of the backing source as load_knowledge_base finds it: the
file may be absent, present but not JSON, or parsed into a top-level
object.  A source parsing to a non-object top level is not modelled; every
claim-relevant input parses to an object. -/
inductive KBSource where
  | missing
  | unparsable
  | parsed (fields : List (String × JValue))

/-- Embedding of knowledge_base.load_knowledge_base, cache aside (the cache
only memoizes a successful result).  A missing file and a JSON parse
failure raise the plain base error.  A validation failure is raised inside
the try block as the validation subtype, but the final broad except clause
of the source catches every Exception, so it catches this subtype too and
re-raises the message wrapped in a plain base error. -/
def load_knowledge_base : KBSource → Except KBError (List (String × JValue))
  | .missing => .error (.base "Knowledge base file tidak ditemukan")
  | .unparsable => .error (.base "Error parsing JSON file")
  | .parsed fields =>
    match validate_knowledge_base_structure fields with
    | .ok _ => .ok fields
    | .error msg =>
      .error (.base ("Unexpected error loading knowledge base: " ++ msg))

/-- A knowledge base violating referential integrity: its single rule
references symptom GX, absent from the (empty) symptom catalog. -/
def kbGhost : KnowledgeBase where
  symptoms := []
  nutrients := [⟨"D01", "Nitrogen", "solusi"⟩]
  rules := [⟨"D01", "GX", 3/5⟩]

/-! Helper lemmas about the embedded definitions. -/

theorem round_mono_rat {a b : ℚ} (h : a ≤ b) : round a ≤ round b := by
  simp only [round_eq]
  exact Int.floor_le_floor (by linarith)

theorem round4_nonneg {x : ℚ} (h : 0 ≤ x) : 0 ≤ round4 x := by
  unfold round4
  have h0 : round (0 : ℚ) ≤ round (x * 10000) := round_mono_rat (by nlinarith)
  rw [round_zero] at h0
  have : (0 : ℚ) ≤ (round (x * 10000) : ℤ) := by exact_mod_cast h0
  positivity

theorem round4_le_one {x : ℚ} (h : x ≤ 1) : round4 x ≤ 1 := by
  unfold round4
  have h0 : round (x * 10000) ≤ round ((10000 : ℤ) : ℚ) :=
    round_mono_rat (by push_cast; nlinarith)
  rw [round_intCast] at h0
  rw [div_le_one (by norm_num)]
  exact_mod_cast h0

theorem clamp01_nonneg (q : ℚ) : 0 ≤ clamp01 q := le_max_left 0 _

theorem clamp01_le_one (q : ℚ) : clamp01 q ≤ 1 :=
  max_le (by norm_num) (min_le_left 1 q)

theorem calculate_rule_cf_unit (p u : ℚ) :
    0 ≤ calculate_rule_cf p u ∧ calculate_rule_cf p u ≤ 1 :=
  ⟨mul_nonneg (clamp01_nonneg p) (clamp01_nonneg u),
   mul_le_one₀ (clamp01_le_one p) (clamp01_nonneg u) (clamp01_le_one u)⟩

theorem combineStep_unit {c x : ℚ} (hc0 : 0 ≤ c) (hc1 : c ≤ 1)
    (hx0 : 0 ≤ x) (hx1 : x ≤ 1) :
    0 ≤ combineStep c x ∧ combineStep c x ≤ 1 ∧
    c ≤ combineStep c x ∧ x ≤ combineStep c x := by
  unfold combineStep
  exact ⟨by nlinarith, by nlinarith, by nlinarith, by nlinarith⟩

theorem combineFinal_unit (l : List ℚ) : ∀ a : ℚ, 0 ≤ a → a ≤ 1 →
    (∀ x ∈ l, 0 ≤ x ∧ x ≤ 1) →
    a ≤ combineFinal a l ∧ 0 ≤ combineFinal a l ∧ combineFinal a l ≤ 1 := by
  induction l with
  | nil => intro a h0 h1 _; exact ⟨le_refl a, h0, h1⟩
  | cons x rest ih =>
    intro a h0 h1 hall
    have hx := hall x (List.mem_cons_self x rest)
    have hstep := combineStep_unit h0 h1 hx.1 hx.2
    have hrec := ih (combineStep a x) hstep.1 hstep.2.1
      (fun y hy => hall y (List.mem_cons_of_mem x hy))
    exact ⟨le_trans hstep.2.2.1 hrec.1, hrec.2.1, hrec.2.2⟩

theorem mem_le_combineFinal (l : List ℚ) : ∀ a : ℚ, 0 ≤ a → a ≤ 1 →
    (∀ x ∈ l, 0 ≤ x ∧ x ≤ 1) → ∀ x ∈ l, x ≤ combineFinal a l := by
  induction l with
  | nil => intro a _ _ _ x hx; simp at hx
  | cons y rest ih =>
    intro a h0 h1 hall x hx
    have hy := hall y (List.mem_cons_self y rest)
    have hstep := combineStep_unit h0 h1 hy.1 hy.2
    have hrest : ∀ z ∈ rest, 0 ≤ z ∧ z ≤ 1 :=
      fun z hz => hall z (List.mem_cons_of_mem y hz)
    rcases List.mem_cons.mp hx with rfl | hx2
    · exact le_trans hstep.2.2.2
        (combineFinal_unit rest (combineStep a x) hstep.1 hstep.2.1 hrest).1
    · exact ih (combineStep a y) hstep.1 hstep.2.1 hrest x hx2

theorem combineFold_fst (l : List ℚ) : ∀ (acc : ℚ) (idx : ℕ),
    (combineFold acc idx l).1 = combineFinal acc l := by
  induction l with
  | nil => intro acc idx; rfl
  | cons x rest ih =>
    intro acc idx
    simp only [combineFold, combineFinal]
    exact ih (combineStep acc x) (idx + 1)

theorem combine_multiple_cf_fst (a : ℚ) (l : List ℚ) :
    (combine_multiple_cf (a :: l)).1 = combineFinal a l := by
  cases l with
  | nil => rfl
  | cons x rest =>
    show (combineFold a 1 (x :: rest)).1 = _
    exact combineFold_fst (x :: rest) a 1

theorem combineRunning_cons (a : ℚ) (l : List ℚ) :
    combineRunning a l = a :: (combineRunning a l).tail := by
  cases l <;> rfl

theorem combineRunning_chain (l : List ℚ) : ∀ a : ℚ, 0 ≤ a → a ≤ 1 →
    (∀ x ∈ l, 0 ≤ x ∧ x ≤ 1) →
    List.Chain' (fun p q => p ≤ q) (combineRunning a l) := by
  induction l with
  | nil => intro a _ _ _; simp [combineRunning]
  | cons x rest ih =>
    intro a h0 h1 hall
    have hx := hall x (List.mem_cons_self x rest)
    have hstep := combineStep_unit h0 h1 hx.1 hx.2
    have hch := ih (combineStep a x) hstep.1 hstep.2.1
      (fun z hz => hall z (List.mem_cons_of_mem x hz))
    show List.Chain' _ (a :: combineRunning (combineStep a x) rest)
    rw [combineRunning_cons (combineStep a x) rest] at hch ⊢
    exact List.chain'_cons.mpr ⟨hstep.2.2.1, hch⟩

theorem combineFinal_eq_prod (l : List ℚ) : ∀ a : ℚ,
    combineFinal a l = 1 - (1 - a) * (l.map (fun x => 1 - x)).prod := by
  induction l with
  | nil => intro a; simp [combineFinal]
  | cons x rest ih =>
    intro a
    simp only [combineFinal, List.map_cons, List.prod_cons]
    rw [ih (combineStep a x)]
    unfold combineStep
    ring

theorem combine_multiple_cf_fst_prod (l : List ℚ) :
    (combine_multiple_cf l).1 = 1 - (l.map (fun x => 1 - x)).prod := by
  cases l with
  | nil => simp [combine_multiple_cf]
  | cons a rest =>
    rw [combine_multiple_cf_fst, combineFinal_eq_prod]
    simp only [List.map_cons, List.prod_cons]

theorem le_foldl_max (l : List ℚ) : ∀ a : ℚ, a ≤ l.foldl max a := by
  induction l with
  | nil => intro a; exact le_refl a
  | cons x rest ih =>
    intro a
    exact le_trans (le_max_left a x) (ih (max a x))

theorem mem_le_foldl_max (l : List ℚ) : ∀ (a x : ℚ), x ∈ l → x ≤ l.foldl max a := by
  induction l with
  | nil => intro a x hx; simp at hx
  | cons y rest ih =>
    intro a x hx
    rcases List.mem_cons.mp hx with rfl | hx2
    · exact le_trans (le_max_right a x) (le_foldl_max rest (max a x))
    · exact ih (max a y) x hx2

theorem foldl_max_le (l : List ℚ) : ∀ a b : ℚ, a ≤ b → (∀ x ∈ l, x ≤ b) →
    l.foldl max a ≤ b := by
  induction l with
  | nil => intro a b h _; exact h
  | cons x rest ih =>
    intro a b h hall
    exact ih (max a x) b (max_le h (hall x (List.mem_cons_self x rest)))
      (fun z hz => hall z (List.mem_cons_of_mem x hz))

theorem maxByValue_val (rest : List (String × ℚ)) : ∀ best : String × ℚ,
    (maxByValue best rest).2 = (rest.map Prod.snd).foldl max best.2 := by
  induction rest with
  | nil => intro best; rfl
  | cons p tl ih =>
    intro best
    simp only [maxByValue, List.map_cons, List.foldl_cons]
    by_cases h : best.2 < p.2
    · rw [if_pos h, ih p, max_eq_right (le_of_lt h)]
    · rw [if_neg h, ih best, max_eq_left (not_lt.mp h)]

theorem le_maxByValue (rest : List (String × ℚ)) (best : String × ℚ) :
    best.2 ≤ (maxByValue best rest).2 := by
  rw [maxByValue_val]
  exact le_foldl_max (rest.map Prod.snd) best.2

theorem maxByValue_find (rest : List (String × ℚ)) : ∀ best : String × ℚ,
    List.find? (fun q => q.2 == (maxByValue best rest).2) (best :: rest) =
      some (maxByValue best rest) := by
  induction rest with
  | nil =>
    intro best
    simp [maxByValue]
  | cons y tl ih =>
    intro best
    by_cases h : best.2 < y.2
    · simp only [maxByValue, if_pos h]
      have hle : y.2 ≤ (maxByValue y tl).2 := le_maxByValue tl y
      have hne : ¬ (fun q : String × ℚ => q.2 == (maxByValue y tl).2) best = true := by
        simp only [beq_iff_eq]
        exact ne_of_lt (lt_of_lt_of_le h hle)
      rw [List.find?_cons_of_neg (p := fun q : String × ℚ => q.2 == (maxByValue y tl).2) _ hne]
      exact ih y
    · simp only [maxByValue, if_neg h]
      have ihb := ih best
      by_cases hb : best.2 = (maxByValue best tl).2
      · have hpredb : (fun q : String × ℚ => q.2 == (maxByValue best tl).2) best = true := by
          simp only [beq_iff_eq]; exact hb
        rw [List.find?_cons_of_pos (p := fun q : String × ℚ => q.2 == (maxByValue best tl).2) _ hpredb] at ihb ⊢
        exact ihb
      · have hpredb : ¬ (fun q : String × ℚ => q.2 == (maxByValue best tl).2) best = true := by
          simp only [beq_iff_eq]; exact hb
        rw [List.find?_cons_of_neg (p := fun q : String × ℚ => q.2 == (maxByValue best tl).2) _ hpredb] at ihb
        have hpb : ¬ (fun q : String × ℚ => q.2 == (maxByValue best tl).2) y = true := by
          simp only [beq_iff_eq]
          intro hpe
          have h1 : y.2 ≤ best.2 := not_lt.mp h
          have h2 : best.2 ≤ (maxByValue best tl).2 := le_maxByValue tl best
          exact hb (le_antisymm h2 (hpe ▸ h1))
        rw [List.find?_cons_of_neg (p := fun q : String × ℚ => q.2 == (maxByValue best tl).2) _ hpredb,
          List.find?_cons_of_neg (p := fun q : String × ℚ => q.2 == (maxByValue best tl).2) _ hpb]
        exact ihb

theorem get_top_nutrient_all_zero (xs : List (String × ℚ))
    (h : ∀ p ∈ xs, p.2 = 0) : get_top_nutrient xs = none := by
  cases xs with
  | nil => rfl
  | cons p rest =>
    simp only [get_top_nutrient]
    have hmax : (rest.map Prod.snd).foldl max p.2 = 0 := by
      have h1 : (rest.map Prod.snd).foldl max p.2 ≤ 0 := by
        refine foldl_max_le _ _ _ (le_of_eq (h p (List.mem_cons_self p rest))) ?_
        intro x hx
        rcases List.mem_map.mp hx with ⟨q, hq, rfl⟩
        exact le_of_eq (h q (List.mem_cons_of_mem p hq))
      have h2 : p.2 ≤ (rest.map Prod.snd).foldl max p.2 := le_foldl_max _ _
      exact le_antisymm h1 (le_of_eq_of_le (h p (List.mem_cons_self p rest)).symm h2)
    rw [hmax]
    simp

theorem symptomLookup_eq_none {kb : KnowledgeBase} {c : String}
    (h : c ∉ kb.symptomCodes) : symptomLookup kb c = none := by
  unfold symptomLookup
  rw [List.find?_eq_none]
  intro s hs
  simp only [decide_eq_true_eq]
  intro heq
  exact h (heq ▸ List.mem_map_of_mem Symptom.code (List.mem_reverse.mp hs))

theorem ruleEntry_ok_some {kb : KnowledgeBase} {sel : List (String × CFValue)}
    {r : Rule} {e : RuleUsage × ℚ} (h : ruleEntry kb sel r = .ok (some e)) :
    ∃ u : ℚ, sel.lookup r.symptom = some (.num u) ∧ 0 < u ∧
      e.2 = calculate_rule_cf r.cf u := by
  unfold ruleEntry at h
  split at h
  · simp at h
  · simp at h
  · rename_i cf_user heq
    split at h
    · rename_i hu
      simp only [Except.ok.injEq, Option.some.injEq] at h
      exact ⟨cf_user, heq, hu, by rw [← h]⟩
    · simp at h

theorem evalRules_cfs_unit {kb : KnowledgeBase} {sel : List (String × CFValue)} :
    ∀ {rs : List Rule} {us : List RuleUsage} {cfs : List ℚ},
    evalRules kb sel rs = .ok (us, cfs) → ∀ x ∈ cfs, 0 ≤ x ∧ x ≤ 1 := by
  intro rs
  induction rs with
  | nil =>
    intro us cfs h x hx
    simp only [evalRules, Except.ok.injEq, Prod.mk.injEq] at h
    rw [← h.2] at hx
    simp at hx
  | cons r rest ih =>
    intro us cfs h x hx
    simp only [evalRules] at h
    cases he : ruleEntry kb sel r with
    | error e => rw [he] at h; simp at h
    | ok o =>
      rw [he] at h
      cases o with
      | none => exact ih h x hx
      | some entry =>
        cases hrec : evalRules kb sel rest with
        | error e2 => rw [hrec] at h; simp at h
        | ok pr =>
          obtain ⟨us2, cfs2⟩ := pr
          rw [hrec] at h
          simp only [Except.ok.injEq, Prod.mk.injEq] at h
          rw [← h.2] at hx
          rcases List.mem_cons.mp hx with rfl | hx2
          · obtain ⟨u, _, _, hu⟩ := ruleEntry_ok_some he
            rw [hu]
            exact calculate_rule_cf_unit r.cf u
          · exact ih hrec x hx2

theorem evalNutrient_fst_unit {kb : KnowledgeBase} {sel : List (String × CFValue)}
    {n : Nutrient} {ce : String × ℚ} {de : String × NutrientDetail}
    (h : evalNutrient kb sel n = .ok (ce, de)) : 0 ≤ ce.2 ∧ ce.2 ≤ 1 := by
  simp only [evalNutrient] at h
  split at h
  · simp at h
  · rename_i us cfs heq
    have hcfs := evalRules_cfs_unit heq
    cases cfs with
    | nil =>
      simp only [Except.ok.injEq, Prod.mk.injEq] at h
      rw [← h.1]
      constructor
      · exact round4_nonneg (le_refl 0)
      · exact round4_le_one (by norm_num)
    | cons a t =>
      simp only [Except.ok.injEq, Prod.mk.injEq] at h
      rw [← h.1]
      have ha := hcfs a (List.mem_cons_self a t)
      have hfin := combineFinal_unit t a ha.1 ha.2
        (fun z hz => hcfs z (List.mem_cons_of_mem a hz))
      rw [combine_multiple_cf_fst]
      exact ⟨round4_nonneg hfin.2.1, round4_le_one hfin.2.2⟩

theorem evalNutrients_fst_unit {kb : KnowledgeBase} {sel : List (String × CFValue)} :
    ∀ {ns : List Nutrient} {cfs : List (String × ℚ)}
      {details : List (String × NutrientDetail)},
    evalNutrients kb sel ns = .ok (cfs, details) → ∀ p ∈ cfs, 0 ≤ p.2 ∧ p.2 ≤ 1 := by
  intro ns
  induction ns with
  | nil =>
    intro cfs details h p hp
    simp only [evalNutrients, Except.ok.injEq, Prod.mk.injEq] at h
    rw [← h.1] at hp
    simp at hp
  | cons n rest ih =>
    intro cfs details h p hp
    simp only [evalNutrients] at h
    cases hn : evalNutrient kb sel n with
    | error e => rw [hn] at h; simp at h
    | ok pr =>
      obtain ⟨ce, de⟩ := pr
      rw [hn] at h
      cases hrec : evalNutrients kb sel rest with
      | error e2 => rw [hrec] at h; simp at h
      | ok pr2 =>
        obtain ⟨cfs2, det2⟩ := pr2
        rw [hrec] at h
        simp only [Except.ok.injEq, Prod.mk.injEq] at h
        rw [← h.1] at hp
        rcases List.mem_cons.mp hp with rfl | hp2
        · exact evalNutrient_fst_unit hn
        · exact ih hrec p hp2

theorem validate_all_removed {kb : KnowledgeBase} :
    ∀ {sel : List (String × CFValue)},
    (∀ p ∈ sel, p.1 ∉ kb.symptomCodes ∨ p.2 = CFValue.nonNumeric) →
    (validate_selected_symptoms kb sel).1 = [] := by
  intro sel
  induction sel with
  | nil => intro _; rfl
  | cons hd rest ih =>
    intro h
    obtain ⟨c, v⟩ := hd
    have hrest := ih (fun p hp => h p (List.mem_cons_of_mem _ hp))
    have hhd := h (c, v) (List.mem_cons_self _ rest)
    simp only [validate_selected_symptoms]
    by_cases hc : c ∈ kb.symptomCodes
    · rcases hhd with habs | hnn
      · exact absurd hc habs
      · simp only at hnn
        rw [if_pos hc, hnn]
        exact hrest
    · rw [if_neg hc]
      exact hrest

/-! Claim theorems. -/

/-- C1: on a knowledge base whose rules for nutrient D04 are G19 at 0.85,
G20 at 0.93 and G21 at 0.70, the observation G19 at 0.8, G20 at 1.0 and G21
at 0.6 yields per-rule contributions 0.68, 0.93 and 0.42 in that order, exact
combination accumulator values 0.68, 0.9776 and 0.987008, an exact final
value 0.987008, and a final CF for D04 rounded to 4 decimal places equal to
0.987. -/
theorem worked_example_d04 :
    calculate_cf_with_details kbD04 obsD04 true =
      .ok ([("D04", 987/1000)],
        [("D04",
          { nutrient_code := "D04", nutrient_name := "Defisiensi Kalsium",
            rules_used :=
              [⟨"G19", "Gejala 19", "Buah", 85/100, 8/10, 68/100⟩,
               ⟨"G20", "Gejala 20", "Buah", 93/100, 1, 93/100⟩,
               ⟨"G21", "Gejala 21", "Buah", 70/100, 6/10, 42/100⟩],
            cf_list := [68/100, 93/100, 42/100],
            combination_steps :=
              [⟨1, 68/100, 93/100, 9776/10000⟩, ⟨2, 9776/10000, 42/100, 987/1000⟩],
            cf_final := 987/1000, cf_percentage := 987/10 })]) ∧
    combineRunning (68/100) [93/100, 42/100] = [68/100, 9776/10000, 987008/1000000] ∧
    (combine_multiple_cf [68/100, 93/100, 42/100]).1 = 987008/1000000 := by
  have hval : validate_selected_symptoms kbD04 obsD04 =
      ([("G19", 4/5), ("G20", 1), ("G21", 3/5)], []) := by
    norm_num [validate_selected_symptoms, kbD04, obsD04, KnowledgeBase.symptomCodes]
  have h19 : ruleEntry kbD04 [("G19", .num (4/5)), ("G20", .num 1), ("G21", .num (3/5))]
      ⟨"D04", "G19", 17/20⟩ =
      .ok (some (⟨"G19", "Gejala 19", "Buah", 17/20, 4/5, 17/25⟩, 17/25)) := by
    simp [ruleEntry, List.lookup, symptomLookup, kbD04, calculate_rule_cf, clamp01,
      min_def, max_def, round4]
    norm_num [round_eq]
  have h20 : ruleEntry kbD04 [("G19", .num (4/5)), ("G20", .num 1), ("G21", .num (3/5))]
      ⟨"D04", "G20", 93/100⟩ =
      .ok (some (⟨"G20", "Gejala 20", "Buah", 93/100, 1, 93/100⟩, 93/100)) := by
    simp [ruleEntry, List.lookup, symptomLookup, kbD04, calculate_rule_cf, clamp01,
      min_def, max_def, round4]
    norm_num [round_eq]
  have h21 : ruleEntry kbD04 [("G19", .num (4/5)), ("G20", .num 1), ("G21", .num (3/5))]
      ⟨"D04", "G21", 7/10⟩ =
      .ok (some (⟨"G21", "Gejala 21", "Buah", 7/10, 3/5, 21/50⟩, 21/50)) := by
    simp [ruleEntry, List.lookup, symptomLookup, kbD04, calculate_rule_cf, clamp01,
      min_def, max_def, round4]
    norm_num [round_eq]
  have hrules : evalRules kbD04 [("G19", .num (4/5)), ("G20", .num 1), ("G21", .num (3/5))]
      [⟨"D04", "G19", 17/20⟩, ⟨"D04", "G20", 93/100⟩, ⟨"D04", "G21", 7/10⟩] =
      .ok ([⟨"G19", "Gejala 19", "Buah", 17/20, 4/5, 17/25⟩,
            ⟨"G20", "Gejala 20", "Buah", 93/100, 1, 93/100⟩,
            ⟨"G21", "Gejala 21", "Buah", 7/10, 3/5, 21/50⟩],
           [17/25, 93/100, 21/50]) := by
    simp [evalRules, h19, h20, h21]
  have hcomb : combine_multiple_cf [17/25, 93/100, 21/50] =
      (15422/15625, [⟨1, 17/25, 93/100, 611/625⟩, ⟨2, 611/625, 21/50, 987/1000⟩]) := by
    norm_num [combine_multiple_cf, combineFold, combineStep, round4, round_eq]
  have hfilter : kbD04.rules.filter (fun r => r.nutrient = "D04") =
      [⟨"D04", "G19", 17/20⟩, ⟨"D04", "G20", 93/100⟩, ⟨"D04", "G21", 7/10⟩] := by
    norm_num [kbD04]
  have hnut : evalNutrient kbD04 [("G19", .num (4/5)), ("G20", .num 1), ("G21", .num (3/5))]
      ⟨"D04", "Defisiensi Kalsium", "solusi"⟩ =
      .ok (("D04", 987/1000),
        ("D04",
          { nutrient_code := "D04", nutrient_name := "Defisiensi Kalsium",
            rules_used :=
              [⟨"G19", "Gejala 19", "Buah", 17/20, 4/5, 17/25⟩,
               ⟨"G20", "Gejala 20", "Buah", 93/100, 1, 93/100⟩,
               ⟨"G21", "Gejala 21", "Buah", 7/10, 3/5, 21/50⟩],
            cf_list := [17/25, 93/100, 21/50],
            combination_steps :=
              [⟨1, 17/25, 93/100, 611/625⟩, ⟨2, 611/625, 21/50, 987/1000⟩],
            cf_final := 987/1000, cf_percentage := 987/10 })) := by
    simp [evalNutrient, hfilter, hrules, hcomb, round4, round2]
    norm_num [round_eq]
  have hnutrients : kbD04.nutrients = [⟨"D04", "Defisiensi Kalsium", "solusi"⟩] := rfl
  refine ⟨?_, ?_, ?_⟩
  · simp [calculate_cf_with_details, hval, hnutrients, evalNutrients, hnut] <;>
      norm_num [round_eq]
  · norm_num [combineRunning, combineStep]
  · norm_num [combine_multiple_cf, combineFold, combineStep]

/-- C2: whenever structural validation of the parsed source fails,
load_knowledge_base does not surface the validation subtype; the broad
except clause wraps the failure in a plain base KnowledgeBaseError, so the
caller cannot distinguish a validation failure from an unreadable source,
contrary to the claim and to the function docstring. -/
theorem load_wraps_validation_failure (fields : List (String × JValue)) (msg : String)
    (h : validate_knowledge_base_structure fields = .error msg) :
    load_knowledge_base (KBSource.parsed fields) =
      .error (.base ("Unexpected error loading knowledge base: " ++ msg)) := by
  simp only [load_knowledge_base, h]

/-- C2 witness: a parsed source that is an empty object violates the
structural invariants (missing symptoms collection) and load_knowledge_base
reports it as a plain base error. -/
theorem load_wraps_validation_failure_witness :
    load_knowledge_base (KBSource.parsed []) =
      .error (.base ("Unexpected error loading knowledge base: " ++
        "Knowledge base tidak memiliki key symptoms yang diperlukan")) :=
  load_wraps_validation_failure [] _ rfl

/-- C3 counterexample: with a rule referencing symptom GX absent from the
symptom catalog and an observation containing GX, calculate_cf_with_details
(validation bypassed) returns a successful result, evaluating the rule and
substituting placeholder symptom data (name GX, category Unknown) in the
trace, instead of raising an error. -/
theorem ghost_rule_not_fatal :
    calculate_cf_with_details kbGhost [("GX", CFValue.num 1)] false =
      .ok ([("D01", 3/5)],
        [("D01", ⟨"D01", "Nitrogen",
           [⟨"GX", "GX", "Unknown", 3/5, 1, 3/5⟩], [3/5], [], 3/5, 60⟩)]) := by
  have hentry : ruleEntry kbGhost [("GX", .num 1)] ⟨"D01", "GX", 3/5⟩ =
      .ok (some (⟨"GX", "GX", "Unknown", 3/5, 1, 3/5⟩, 3/5)) := by
    simp [ruleEntry, List.lookup, symptomLookup, kbGhost, clamp01, calculate_rule_cf,
      min_def, max_def, round4]
    norm_num [round_eq]
  have hrulesG : evalRules kbGhost [("GX", .num 1)] [⟨"D01", "GX", 3/5⟩] =
      .ok ([⟨"GX", "GX", "Unknown", 3/5, 1, 3/5⟩], [3/5]) := by
    simp [evalRules, hentry]
  have hfilterG : kbGhost.rules.filter (fun r => r.nutrient = "D01") =
      [⟨"D01", "GX", 3/5⟩] := by
    norm_num [kbGhost]
  have hnutG : evalNutrient kbGhost [("GX", .num 1)] ⟨"D01", "Nitrogen", "solusi"⟩ =
      .ok (("D01", 3/5),
        ("D01", ⟨"D01", "Nitrogen",
          [⟨"GX", "GX", "Unknown", 3/5, 1, 3/5⟩], [3/5], [], 3/5, 60⟩)) := by
    simp [evalNutrient, hfilterG, hrulesG, combine_multiple_cf, round4, round2]
    norm_num [round_eq]
  have hnutrientsG : kbGhost.nutrients = [⟨"D01", "Nitrogen", "solusi"⟩] := rfl
  simp [calculate_cf_with_details, evalNutrients, hnutrientsG, hnutG]

/-- C3 amended: a rule whose symptom code is absent from the catalog but
present in the observation with positive confidence is evaluated normally;
the trace entry carries the placeholder name (the symptom code itself) and
the category Unknown, and no error is raised. -/
theorem ghost_rule_placeholder (kb : KnowledgeBase) (sel : List (String × CFValue))
    (r : Rule) (u : ℚ) (habs : r.symptom ∉ kb.symptomCodes)
    (hsel : sel.lookup r.symptom = some (CFValue.num u)) (hu : 0 < u) :
    ruleEntry kb sel r =
      .ok (some (⟨r.symptom, r.symptom, "Unknown", round4 r.cf, round4 u,
                  round4 (calculate_rule_cf r.cf u)⟩, calculate_rule_cf r.cf u)) := by
  simp only [ruleEntry, hsel, if_pos hu, symptomLookup_eq_none habs, Option.getD_none]

/-- C3 witness: the amended statement at the concrete ghost rule. -/
theorem ghost_rule_placeholder_witness :
    ruleEntry kbGhost [("GX", CFValue.num 1)] ⟨"D01", "GX", 3/5⟩ =
      .ok (some (⟨"GX", "GX", "Unknown", round4 (3/5), round4 1,
                  round4 (calculate_rule_cf (3/5) 1)⟩, calculate_rule_cf (3/5) 1)) :=
  ghost_rule_placeholder kbGhost [("GX", CFValue.num 1)] ⟨"D01", "GX", 3/5⟩ 1
    (by simp [kbGhost, KnowledgeBase.symptomCodes]) (by simp [List.lookup]) (by norm_num)

/-- C9: a rule whose symptom is absent from the normalized observation, or
present with user confidence exactly 0, contributes nothing: the evaluation
of the rule list is the same as without the rule, so no rules_used entry, no
cf_list entry and no combination step arises from it. -/
theorem skipped_rules (kb : KnowledgeBase) (sel : List (String × CFValue)) (r : Rule)
    (rest : List Rule)
    (h : sel.lookup r.symptom = none ∨ sel.lookup r.symptom = some (CFValue.num 0)) :
    evalRules kb sel (r :: rest) = evalRules kb sel rest := by
  rcases h with h | h <;> simp [evalRules, ruleEntry, h]

/-- C9 witness: a rule whose symptom is absent from the (empty)
observation is skipped. -/
theorem skipped_rules_witness :
    evalRules kbD04 [] [⟨"D04", "G19", 85/100⟩] = evalRules kbD04 [] [] :=
  skipped_rules kbD04 [] ⟨"D04", "G19", 85/100⟩ [] (Or.inl rfl)

/-- C4: an observation entry with a known symptom code and a numeric value
outside the unit interval is kept by the validator with its value clamped
(below 0 to 0, above 1 to 1), and a clamped note recording the original
value is emitted, embedding the logged warning. -/
theorem clamped_not_dropped (kb : KnowledgeBase) (sel : List (String × CFValue))
    (code : String) (q : ℚ) (hmem : (code, CFValue.num q) ∈ sel)
    (hvalid : code ∈ kb.symptomCodes) (hout : q < 0 ∨ 1 < q) :
    ((code, clamp01 q) ∈ (validate_selected_symptoms kb sel).1 ∧
     ValidationNote.clamped code q ∈ (validate_selected_symptoms kb sel).2) ∧
    (q < 0 → clamp01 q = 0) ∧ (1 < q → clamp01 q = 1) := by
  refine ⟨?_, ?_, ?_⟩
  · have hnot : ¬ (0 ≤ q ∧ q ≤ 1) := by
      rcases hout with h | h
      · exact fun hh => absurd hh.1 (not_le.mpr h)
      · exact fun hh => absurd hh.2 (not_le.mpr h)
    induction sel with
    | nil => simp at hmem
    | cons hd rest ih =>
      obtain ⟨c, v⟩ := hd
      rcases List.mem_cons.mp hmem with heq | htail
      · cases heq
        simp only [validate_selected_symptoms]
        rw [if_pos hvalid, if_neg hnot]
        exact ⟨List.mem_cons_self _ _, List.mem_cons_self _ _⟩
      · have hih := ih htail
        simp only [validate_selected_symptoms]
        by_cases hc : c ∈ kb.symptomCodes
        · rw [if_pos hc]
          cases v with
          | nonNumeric =>
            dsimp only
            exact ⟨hih.1, List.mem_cons_of_mem _ hih.2⟩
          | num qv =>
            dsimp only
            by_cases hq : 0 ≤ qv ∧ qv ≤ 1
            · rw [if_pos hq]
              exact ⟨List.mem_cons_of_mem _ hih.1, hih.2⟩
            · rw [if_neg hq]
              exact ⟨List.mem_cons_of_mem _ hih.1, List.mem_cons_of_mem _ hih.2⟩
        · rw [if_neg hc]
          exact ⟨hih.1, List.mem_cons_of_mem _ hih.2⟩
  · intro h
    unfold clamp01
    rw [min_eq_right (le_of_lt (lt_of_lt_of_le h zero_le_one)), max_eq_left (le_of_lt h)]
  · intro h
    unfold clamp01
    rw [min_eq_left (le_of_lt h), max_eq_right zero_le_one]

/-- C4 witness: the out-of-range value 1.5 for known symptom G19 is kept
and clamped to 1. -/
theorem clamped_not_dropped_witness :
    (("G19", clamp01 (3/2)) ∈
        (validate_selected_symptoms kbD04 [("G19", CFValue.num (3/2))]).1 ∧
     ValidationNote.clamped "G19" (3/2) ∈
        (validate_selected_symptoms kbD04 [("G19", CFValue.num (3/2))]).2) ∧
    ((3 : ℚ)/2 < 0 → clamp01 (3/2) = 0) ∧ (1 < (3 : ℚ)/2 → clamp01 (3/2) = 1) :=
  clamped_not_dropped kbD04 [("G19", CFValue.num (3/2))] "G19" (3/2)
    (List.mem_cons_self _ _) (by simp [kbD04, KnowledgeBase.symptomCodes])
    (Or.inr (by norm_num))

/-- C6: for a nonempty contribution list with all values in the unit
interval, the running accumulator values are nondecreasing, the final
combined value never exceeds 1, and the final value is at least every
single contribution, so at least the largest. -/
theorem combination_monotone (a : ℚ) (l : List ℚ) (ha : 0 ≤ a ∧ a ≤ 1)
    (hl : ∀ x ∈ l, 0 ≤ x ∧ x ≤ 1) :
    List.Chain' (fun p q => p ≤ q) (combineRunning a l) ∧
    (combine_multiple_cf (a :: l)).1 ≤ 1 ∧
    (∀ x ∈ a :: l, x ≤ (combine_multiple_cf (a :: l)).1) := by
  refine ⟨combineRunning_chain l a ha.1 ha.2 hl, ?_, ?_⟩
  · rw [combine_multiple_cf_fst]
    exact (combineFinal_unit l a ha.1 ha.2 hl).2.2
  · intro x hx
    rw [combine_multiple_cf_fst]
    rcases List.mem_cons.mp hx with rfl | hx2
    · exact (combineFinal_unit l x ha.1 ha.2 hl).1
    · exact mem_le_combineFinal l a ha.1 ha.2 hl x hx2

/-- C6 witness: the monotonicity statement at the contributions 0.6 and
0.75. -/
theorem combination_monotone_witness :
    (List.Chain' (fun p q => p ≤ q) (combineRunning (3/5) [3/4]) ∧
     (combine_multiple_cf ((3:ℚ)/5 :: [3/4])).1 ≤ 1 ∧
     (∀ x ∈ (3:ℚ)/5 :: [3/4], x ≤ (combine_multiple_cf ((3:ℚ)/5 :: [3/4])).1)) :=
  combination_monotone (3/5) [3/4] (by norm_num)
    (by intro x hx; rw [List.mem_singleton.mp hx]; norm_num)

/-- C7: in exact arithmetic the final value of the combination recurrence
is invariant under every permutation of the contribution list; in
particular combining a, b, c and combining c, a, b agree. -/
theorem combination_order_insensitive (l l2 : List ℚ) (h : l.Perm l2) :
    (combine_multiple_cf l).1 = (combine_multiple_cf l2).1 ∧
    ∀ a b c : ℚ, (combine_multiple_cf [a, b, c]).1 = (combine_multiple_cf [c, a, b]).1 := by
  constructor
  · rw [combine_multiple_cf_fst_prod, combine_multiple_cf_fst_prod,
      (h.map (fun x => 1 - x)).prod_eq]
  · intro a b c
    rw [combine_multiple_cf_fst_prod, combine_multiple_cf_fst_prod]
    simp only [List.map_cons, List.map_nil, List.prod_cons, List.prod_nil]
    ring

/-- C7 witness: permutation invariance at the concrete lists 0.6, 2 thirds,
0.75 and its rotation. -/
theorem combination_order_insensitive_witness :
    ((combine_multiple_cf [3/5, 2/3, 3/4]).1 = (combine_multiple_cf [3/4, 3/5, 2/3]).1 ∧
     ∀ a b c : ℚ, (combine_multiple_cf [a, b, c]).1 = (combine_multiple_cf [c, a, b]).1) :=
  combination_order_insensitive [3/5, 2/3, 3/4] [3/4, 3/5, 2/3]
    ((List.Perm.cons (3/5) (List.Perm.swap (3/4) (2/3) [])).trans
      (List.Perm.swap (3/4) (3/5) [2/3]))

/-- C5: over a mapping with nonnegative values, get_top_nutrient returns
nothing exactly when the mapping is empty or every value is 0; when it
returns a pair, that pair is the first entry of the mapping attaining the
maximum value (the deterministic tie-break), and its value bounds every
entry. -/
theorem get_top_nutrient_spec (l : List (String × ℚ)) (h : ∀ p ∈ l, 0 ≤ p.2) :
    (get_top_nutrient l = none ↔ l = [] ∨ ∀ p ∈ l, p.2 = 0) ∧
    (∀ c q, get_top_nutrient l = some (c, q) →
      List.find? (fun p => p.2 == q) l = some (c, q) ∧ ∀ p ∈ l, p.2 ≤ q) := by
  cases l with
  | nil =>
    refine ⟨by simp [get_top_nutrient], ?_⟩
    intro c q hq
    simp [get_top_nutrient] at hq
  | cons p rest =>
    refine ⟨?_, ?_⟩
    · simp only [get_top_nutrient]
      by_cases hz : (rest.map Prod.snd).foldl max p.2 = 0
      · rw [if_pos hz]
        constructor
        · intro _
          right
          intro x hx
          have hx0 : 0 ≤ x.2 := h x hx
          have hxle : x.2 ≤ (rest.map Prod.snd).foldl max p.2 := by
            rcases List.mem_cons.mp hx with rfl | hx2
            · exact le_foldl_max _ _
            · exact mem_le_foldl_max _ _ _ (List.mem_map_of_mem Prod.snd hx2)
          rw [hz] at hxle
          exact le_antisymm hxle hx0
        · intro _
          rfl
      · rw [if_neg hz]
        constructor
        · intro habs
          exact absurd habs (by simp)
        · rintro (hnil | hall)
          · exact absurd hnil (by simp)
          · refine absurd ?_ hz
            have h1 : (rest.map Prod.snd).foldl max p.2 ≤ 0 := by
              refine foldl_max_le _ _ _ (le_of_eq (hall p (List.mem_cons_self p rest))) ?_
              intro x hx
              rcases List.mem_map.mp hx with ⟨y, hy, rfl⟩
              exact le_of_eq (hall y (List.mem_cons_of_mem p hy))
            have h2 : p.2 ≤ (rest.map Prod.snd).foldl max p.2 := le_foldl_max _ _
            exact le_antisymm h1
              (le_of_eq_of_le (hall p (List.mem_cons_self p rest)).symm h2)
    · intro c q hq
      simp only [get_top_nutrient] at hq
      by_cases hz : (rest.map Prod.snd).foldl max p.2 = 0
      · rw [if_pos hz] at hq
        exact absurd hq (by simp)
      · rw [if_neg hz] at hq
        simp only [Option.some.injEq, Prod.mk.injEq] at hq
        obtain ⟨hc, hqe⟩ := hq
        have h2 : (maxByValue p rest).2 = q := (maxByValue_val rest p).trans hqe
        have hmv : maxByValue p rest = (c, q) := by
          rw [← hc, ← h2]
        have hfind := maxByValue_find rest p
        rw [hmv] at hfind
        refine ⟨hfind, ?_⟩
        intro x hx
        rw [← hqe]
        rcases List.mem_cons.mp hx with rfl | hx2
        · exact le_foldl_max _ _
        · exact mem_le_foldl_max _ _ _ (List.mem_map_of_mem Prod.snd hx2)

/-- C5 witness: the characterization at a concrete singleton mapping. -/
theorem get_top_nutrient_spec_witness :
    ((get_top_nutrient [("D04", 987/1000)] = none ↔
        [("D04", (987 : ℚ)/1000)] = [] ∨ ∀ p ∈ [("D04", (987 : ℚ)/1000)], p.2 = 0) ∧
     (∀ c q, get_top_nutrient [("D04", 987/1000)] = some (c, q) →
        List.find? (fun p => p.2 == q) [("D04", (987 : ℚ)/1000)] = some (c, q) ∧
        ∀ p ∈ [("D04", (987 : ℚ)/1000)], p.2 ≤ q)) :=
  get_top_nutrient_spec [("D04", 987/1000)]
    (by intro p hp; rw [List.mem_singleton.mp hp]; norm_num)

/-- C8: an observation whose every entry is removed by normalization (and
hence also an empty observation) yields the mapping assigning CF exactly 0
to every nutrient of the catalog, with empty traces, and get_top_nutrient
on that mapping reports no diagnosis. -/
theorem zero_evidence (kb : KnowledgeBase) (sel : List (String × CFValue))
    (h : ∀ p ∈ sel, p.1 ∉ kb.symptomCodes ∨ p.2 = CFValue.nonNumeric) :
    calculate_cf_with_details kb sel true =
      .ok (kb.nutrients.map (fun n => (n.code, (0 : ℚ))),
           kb.nutrients.map (fun n => (n.code, ⟨n.code, n.name, [], [], [], 0, 0⟩))) ∧
    get_top_nutrient (kb.nutrients.map (fun n => (n.code, (0 : ℚ)))) = none := by
  constructor
  · have hrm := validate_all_removed h
    simp only [calculate_cf_with_details, hrm, List.map_nil, if_true]
  · apply get_top_nutrient_all_zero
    intro p hp
    rcases List.mem_map.mp hp with ⟨n, _, rfl⟩
    rfl

/-- C8 witness: an observation holding only the unknown code BAD reduces
to the all-zero result and no diagnosis on the D04 knowledge base. -/
theorem zero_evidence_witness :
    (calculate_cf_with_details kbD04 [("BAD", CFValue.num 1)] true =
      .ok (kbD04.nutrients.map (fun n => (n.code, (0 : ℚ))),
           kbD04.nutrients.map (fun n => (n.code, ⟨n.code, n.name, [], [], [], 0, 0⟩))) ∧
     get_top_nutrient (kbD04.nutrients.map (fun n => (n.code, (0 : ℚ)))) = none) :=
  zero_evidence kbD04 [("BAD", CFValue.num 1)]
    (by
      intro p hp
      rw [List.mem_singleton.mp hp]
      left
      simp [kbD04, KnowledgeBase.symptomCodes])

/-- C10: calculate_rule_cf clamps both arguments, so every per-rule
contribution lies in the unit interval for all rational inputs, and every
final CF value returned by calculate_cf_with_details lies in the unit
interval whether or not input validation ran. -/
theorem cf_results_bounded (kb : KnowledgeBase) (sel : List (String × CFValue))
    (b : Bool) (res : List (String × ℚ) × List (String × NutrientDetail))
    (h : calculate_cf_with_details kb sel b = .ok res) :
    (∀ p u : ℚ, 0 ≤ calculate_rule_cf p u ∧ calculate_rule_cf p u ≤ 1) ∧
    ∀ p ∈ res.1, 0 ≤ p.2 ∧ p.2 ≤ 1 := by
  refine ⟨fun p u => calculate_rule_cf_unit p u, ?_⟩
  simp only [calculate_cf_with_details] at h
  split at h
  · simp only [Except.ok.injEq] at h
    intro p hp
    rw [← h] at hp
    rcases List.mem_map.mp hp with ⟨n, _, rfl⟩
    norm_num
  · obtain ⟨cfs, details⟩ := res
    intro p hp
    exact evalNutrients_fst_unit h p hp

/-- C10 witness: the bound statement at the empty knowledge base and
observation. -/
theorem cf_results_bounded_witness :
    (∀ p u : ℚ, 0 ≤ calculate_rule_cf p u ∧ calculate_rule_cf p u ≤ 1) ∧
    ∀ p ∈ (([], []) :
        List (String × ℚ) × List (String × NutrientDetail)).1, 0 ≤ p.2 ∧ p.2 ≤ 1 :=
  cf_results_bounded ⟨[], [], []⟩ [] true ([], []) rfl
